import Mathlib

/-!
Verification of the rune line-shape classifier
(src/grammar/src/scanner.c), a tree-sitter external scanner.

Embedding conventions:
* The cursor is a column (`Nat`) plus the remaining input, a `List Nat` of
  codepoints (the C lexer exposes `lookahead` as a 32-bit codepoint that is
  `0` at end of input).
* The 256-byte line buffer becomes a `List Nat` of bytes; the C `(char)` cast
  of a codepoint is modelled as `% 256` (range/equality comparisons against
  positive ASCII literals decide identically for signed and unsigned char,
  so the unsigned-byte view is faithful).
* The scan function returns a `ScanOutcome`: the reported symbol (or none)
  together with how many input characters the cursor advanced past.
-/

/-- TokenType enum of scanner.c (TYP_DESC, DTO_DESC, NON_DESC, FAULT_LINE);
the spec calls these TypeDescription, DtoDescription, GenericDescription,
FaultLine. -/
inductive TokenType where
  | TYP_DESC
  | DTO_DESC
  | NON_DESC
  | FAULT_LINE
  deriving DecidableEq

/-- RequestedKinds: the `valid_symbols` array of the scan entry point, one
flag per token kind. -/
structure ValidSymbols where
  typ_desc : Bool
  dto_desc : Bool
  non_desc : Bool
  fault_line : Bool
  deriving DecidableEq

/-- Decision of one classification call: the reported symbol (none = no
match) and the number of characters the cursor was advanced past. -/
structure ScanOutcome where
  result : Option TokenType
  consumed : Nat
  deriving DecidableEq

/-- Current lookahead codepoint of the cursor; 0 at end of input, matching
the C lexer contract. -/
def lookahead (input : List Nat) : Nat := input.headD 0

/-- Space-counting loop of scanner.c lines 106-110: count and consume
leading space (32) characters. -/
def countSpaces : List Nat → Nat
  | [] => 0
  | c :: rest => if c = 32 then countSpaces rest + 1 else 0

/-- Line-collection loop of scanner.c lines 120-124 (and 155-159): starting
with `buf_len = n`, append the `(char)`-cast lookahead while it is not
newline (10), carriage return (13) or 0 and fewer than 255 bytes are stored. -/
def collectLine : List Nat → Nat → List Nat
  | [], _ => []
  | c :: rest, n =>
    if c = 10 ∨ c = 13 ∨ c = 0 ∨ ¬ n < 255 then []
    else c % 256 :: collectLine rest (n + 1)

/-- Scanning loop of looks_like_code (scanner.c lines 45-57): walk the
buffer tracking whether a dot was seen; an open paren (40) after a dot or
a colon (58) before any dot classifies the line as code. -/
def llcLoop : List Nat → Bool → Bool
  | [], _ => false
  | c :: rest, has_dot =>
    if c = 46 then llcLoop rest true
    else if c = 40 ∧ has_dot = true then true
    else if c = 58 ∧ has_dot = false then true
    else llcLoop rest has_dot

/-- looks_like_code of scanner.c lines 30-58: boundary prefix (third byte a
colon), a literal `return(` head, or the dot/paren/colon scan. -/
def looks_like_code (buf : List Nat) : Bool :=
  if 3 ≤ buf.length ∧ buf.getD 2 0 = 58 then true
  else if buf.take 7 = [114, 101, 116, 117, 114, 110, 40] then true
  else llcLoop buf false

/-- Character loop of is_fault_content (scanner.c lines 67-81): lowercase
letters set `has_word_char`; digits, hyphens and spaces are allowed;
anything else rejects. -/
def ifcLoop : List Nat → Bool → Bool
  | [], has_word_char => has_word_char
  | c :: rest, has_word_char =>
    if 97 ≤ c ∧ c ≤ 122 then ifcLoop rest true
    else if 48 ≤ c ∧ c ≤ 57 then ifcLoop rest has_word_char
    else if c = 45 then ifcLoop rest has_word_char
    else if c = 32 then ifcLoop rest has_word_char
    else false

/-- is_fault_content of scanner.c lines 62-84: nonempty, only
lowercase/digit/hyphen/space bytes, and at least one lowercase letter. -/
def is_fault_content (buf : List Nat) : Bool :=
  if buf.length = 0 then false else ifcLoop buf false

/-- classify: the body of tree_sitter_rune_external_scanner_scan
(scanner.c lines 86-176) as a pure function of the requested kinds and the
cursor (column plus remaining codepoints). -/
def classify (v : ValidSymbols) (column : Nat) (input : List Nat) :
    ScanOutcome :=
  if v.typ_desc = false ∧ v.dto_desc = false ∧ v.non_desc = false ∧
      v.fault_line = false then ⟨none, 0⟩
  else if column ≠ 0 then ⟨none, 0⟩
  else
    let spaces := countSpaces input
    let rest := input.drop spaces
    if v.fault_line = true ∧ 6 ≤ spaces then
      if 97 ≤ lookahead rest ∧ lookahead rest ≤ 122 then
        let buf := collectLine rest 0
        if is_fault_content buf then ⟨some .FAULT_LINE, spaces + buf.length⟩
        else ⟨none, spaces + buf.length⟩
      else ⟨none, spaces⟩
    else if spaces ≠ 4 then ⟨none, spaces⟩
    else if v.typ_desc = false ∧ v.dto_desc = false ∧ v.non_desc = false then
      ⟨none, spaces⟩
    else if ¬ (97 ≤ lookahead rest ∧ lookahead rest ≤ 122) then ⟨none, spaces⟩
    else
      let buf := collectLine rest 0
      if looks_like_code buf then ⟨none, spaces + buf.length⟩
      else if v.typ_desc then ⟨some .TYP_DESC, spaces + buf.length⟩
      else if v.dto_desc then ⟨some .DTO_DESC, spaces + buf.length⟩
      else ⟨some .NON_DESC, spaces + buf.length⟩

/-- tree_sitter_rune_external_scanner_create (scanner.c lines 11-13):
returns NULL; there is no scanner state. -/
def tree_sitter_rune_external_scanner_create : Option Nat := none

/-- tree_sitter_rune_external_scanner_serialize (scanner.c lines 18-20):
writes nothing and reports zero serialized bytes. -/
def tree_sitter_rune_external_scanner_serialize (payload : Option Nat) :
    Nat := 0

/-- tree_sitter_rune_external_scanner_scan (scanner.c lines 86-176): the
payload parameter of the C entry point is never read by the body, which is
exactly `classify`. -/
def tree_sitter_rune_external_scanner_scan (payload : Option Nat)
    (v : ValidSymbols) (column : Nat) (input : List Nat) : ScanOutcome :=
  classify v column input

lemma countSpaces_replicate_append (n : Nat) (rest : List Nat)
    (h : rest.headD 0 ≠ 32) :
    countSpaces (List.replicate n 32 ++ rest) = n := by
  induction n with
  | zero =>
    cases rest with
    | nil => rfl
    | cons c t =>
      simp only [List.headD_cons] at h
      simp [countSpaces, h]
  | succ k ih => simp [List.replicate_succ, countSpaces, ih]

lemma drop_replicate_append (n : Nat) (rest : List Nat) :
    (List.replicate n 32 ++ rest).drop n = rest := by
  have h := List.drop_left (List.replicate n 32) rest
  simpa using h

lemma countSpaces_le_length (input : List Nat) :
    countSpaces input ≤ input.length := by
  induction input with
  | nil => simp [countSpaces]
  | cons c rest ih =>
    simp only [countSpaces, List.length_cons]
    split_ifs <;> omega

lemma take_countSpaces (input : List Nat) :
    input.take (countSpaces input) =
      List.replicate (countSpaces input) 32 := by
  induction input with
  | nil => simp [countSpaces]
  | cons c rest ih =>
    by_cases h : c = 32
    · subst h
      simp [countSpaces, List.replicate_succ, ih]
    · simp [countSpaces, h]

lemma collectLine_eq (cs : List Nat) :
    ∀ n, collectLine cs n =
      ((cs.takeWhile fun c => decide (c ≠ 10 ∧ c ≠ 13 ∧ c ≠ 0)).take
        (255 - n)).map (fun c => c % 256) := by
  induction cs with
  | nil => intro n; simp [collectLine]
  | cons c rest ih =>
    intro n
    by_cases hterm : c = 10 ∨ c = 13 ∨ c = 0
    · have hd : (fun c => decide (c ≠ 10 ∧ c ≠ 13 ∧ c ≠ 0)) c = false := by
        simp only [decide_eq_false_iff_not]
        tauto
      have ht : (c :: rest).takeWhile
          (fun c => decide (c ≠ 10 ∧ c ≠ 13 ∧ c ≠ 0)) = [] :=
        List.takeWhile_cons_of_neg (by simp [hd])
      simp only [collectLine]
      rw [if_pos (by tauto), ht]
      simp
    · have hd : (fun c => decide (c ≠ 10 ∧ c ≠ 13 ∧ c ≠ 0)) c = true := by
        simp only [decide_eq_true_eq]
        tauto
      have ht : (c :: rest).takeWhile
          (fun c => decide (c ≠ 10 ∧ c ≠ 13 ∧ c ≠ 0)) =
          c :: rest.takeWhile (fun c => decide (c ≠ 10 ∧ c ≠ 13 ∧ c ≠ 0)) :=
        List.takeWhile_cons_of_pos (by simp [hd])
      by_cases hn : n < 255
      · have hsub : 255 - n = (255 - (n + 1)) + 1 := by omega
        simp only [collectLine]
        rw [if_neg (by tauto), ih (n + 1), ht, hsub, List.take_succ_cons,
          List.map_cons]
      · have h255 : 255 - n = 0 := by omega
        simp only [collectLine]
        rw [if_pos (by tauto), h255]
        simp

lemma collectLine_length_le (cs : List Nat) :
    ∀ n, (collectLine cs n).length ≤ 255 - n := by
  induction cs with
  | nil => intro n; simp [collectLine]
  | cons c rest ih =>
    intro n
    by_cases hcond : c = 10 ∨ c = 13 ∨ c = 0 ∨ ¬ n < 255
    · simp only [collectLine]
      rw [if_pos hcond]
      simp
    · simp only [collectLine]
      rw [if_neg hcond]
      have hn : n < 255 := by tauto
      have := ih (n + 1)
      simp only [List.length_cons]
      omega

lemma collectLine_length_le_input (cs : List Nat) :
    ∀ n, (collectLine cs n).length ≤ cs.length := by
  induction cs with
  | nil => intro n; simp [collectLine]
  | cons c rest ih =>
    intro n
    by_cases hcond : c = 10 ∨ c = 13 ∨ c = 0 ∨ ¬ n < 255
    · simp only [collectLine]
      rw [if_pos hcond]
      simp
    · simp only [collectLine]
      rw [if_neg hcond]
      have := ih (n + 1)
      simp only [List.length_cons]
      omega

lemma mem_take_collectLine (cs : List Nat) :
    ∀ n, ∀ x ∈ cs.take (collectLine cs n).length,
      x ≠ 10 ∧ x ≠ 13 ∧ x ≠ 0 := by
  induction cs with
  | nil => intro n x hx; simp at hx
  | cons c rest ih =>
    intro n x hx
    by_cases hcond : c = 10 ∨ c = 13 ∨ c = 0 ∨ ¬ n < 255
    · simp only [collectLine] at hx
      rw [if_pos hcond] at hx
      simp at hx
    · simp only [collectLine] at hx
      rw [if_neg hcond] at hx
      simp only [List.length_cons, List.take_succ_cons, List.mem_cons] at hx
      rcases hx with hx | hx
      · subst hx; tauto
      · exact ih (n + 1) x hx

lemma ifcLoop_eq_true_iff (l : List Nat) :
    ∀ acc, ifcLoop l acc = true ↔
      (∀ x ∈ l, (97 ≤ x ∧ x ≤ 122) ∨ (48 ≤ x ∧ x ≤ 57) ∨ x = 45 ∨ x = 32) ∧
      (acc = true ∨ ∃ x ∈ l, 97 ≤ x ∧ x ≤ 122) := by
  induction l with
  | nil => intro acc; simp [ifcLoop]
  | cons c rest ih =>
    intro acc
    by_cases hlow : 97 ≤ c ∧ c ≤ 122
    · rw [ifcLoop, if_pos hlow, ih]
      constructor
      · rintro ⟨hall, -⟩
        refine ⟨?_, Or.inr ⟨c, List.mem_cons_self c rest, hlow⟩⟩
        intro x hx
        rcases List.mem_cons.mp hx with rfl | hx
        · exact Or.inl hlow
        · exact hall x hx
      · rintro ⟨hall, -⟩
        exact ⟨fun x hx => hall x (List.mem_cons_of_mem c hx), Or.inl rfl⟩
    · by_cases hok : (48 ≤ c ∧ c ≤ 57) ∨ c = 45 ∨ c = 32
      · have hloop : ifcLoop (c :: rest) acc = ifcLoop rest acc := by
          rw [ifcLoop, if_neg hlow]
          rcases hok with h | h | h
          · rw [if_pos h]
          · rw [if_neg (by omega), if_pos h]
          · rw [if_neg (by omega), if_neg (by omega), if_pos h]
        rw [hloop, ih]
        constructor
        · rintro ⟨hall, hex⟩
          refine ⟨?_, ?_⟩
          · intro x hx
            rcases List.mem_cons.mp hx with rfl | hx
            · exact Or.inr hok
            · exact hall x hx
          · rcases hex with h | ⟨x, hx, hxl⟩
            · exact Or.inl h
            · exact Or.inr ⟨x, List.mem_cons_of_mem c hx, hxl⟩
        · rintro ⟨hall, hex⟩
          refine ⟨fun x hx => hall x (List.mem_cons_of_mem c hx), ?_⟩
          rcases hex with h | ⟨x, hx, hxl⟩
          · exact Or.inl h
          · rcases List.mem_cons.mp hx with rfl | hx
            · exact absurd hxl hlow
            · exact Or.inr ⟨x, hx, hxl⟩
      · have hloop : ifcLoop (c :: rest) acc = false := by
          rw [ifcLoop, if_neg hlow, if_neg (by tauto), if_neg (by tauto),
            if_neg (by tauto)]
        rw [hloop]
        constructor
        · intro h
          exact absurd h (by simp)
        · rintro ⟨hall, -⟩
          have := hall c (List.mem_cons_self c rest)
          tauto

lemma is_fault_content_iff (buf : List Nat) :
    is_fault_content buf = true ↔
      (∀ x ∈ buf, (97 ≤ x ∧ x ≤ 122) ∨ (48 ≤ x ∧ x ≤ 57) ∨ x = 45 ∨ x = 32) ∧
      ∃ x ∈ buf, 97 ≤ x ∧ x ≤ 122 := by
  unfold is_fault_content
  cases buf with
  | nil => simp
  | cons c rest =>
    rw [if_neg (by simp), ifcLoop_eq_true_iff]
    simp

/-- Position 2 of the buffer is a colon (with the buffer at least 3 long):
the boundary prefix shape of the spec, step 5 first bullet. -/
def thirdCharColon (buf : List Nat) : Prop :=
  3 ≤ buf.length ∧ buf.getD 2 0 = 58

/-- The buffer starts with the seven bytes of `return(`: the spec's second
code shape. -/
def returnCallHead (buf : List Nat) : Prop :=
  buf.take 7 = [114, 101, 116, 117, 114, 110, 40]

/-- A colon occurs in the buffer before any dot: the spec's boundary prefix
scan shape. -/
def colonBeforeDot (l : List Nat) : Prop :=
  ∃ p q, l = p ++ 58 :: q ∧ 46 ∉ p

/-- An opening parenthesis occurs after an earlier dot: the spec's
method/step-call shape. -/
def dotThenParen (l : List Nat) : Prop :=
  ∃ p q r, l = p ++ 46 :: q ++ 40 :: r

/-- Code-shape heuristic as the spec words it: one of the four shapes. -/
def looksLikeCodeSpec (buf : List Nat) : Prop :=
  thirdCharColon buf ∨ returnCallHead buf ∨ colonBeforeDot buf ∨
    dotThenParen buf

lemma llcLoop_true_iff (l : List Nat) : llcLoop l true = true ↔ 40 ∈ l := by
  induction l with
  | nil => simp [llcLoop]
  | cons c rest ih =>
    by_cases h46 : c = 46
    · subst h46
      simp [llcLoop, ih]
    · by_cases h40 : c = 40
      · subst h40
        simp [llcLoop]
      · rw [show llcLoop (c :: rest) true = llcLoop rest true from by
          rw [llcLoop, if_neg h46, if_neg (by simp [h40]), if_neg (by simp)],
          ih]
        simp [List.mem_cons, Ne.symm h40]

lemma colonBeforeDot_cons (c : Nat) (l : List Nat) (h58 : c ≠ 58)
    (h46 : c ≠ 46) : colonBeforeDot (c :: l) ↔ colonBeforeDot l := by
  constructor
  · rintro ⟨p, q, heq, hnot⟩
    cases p with
    | nil =>
      simp only [List.nil_append, List.cons.injEq] at heq
      exact absurd heq.1 h58
    | cons a p' =>
      simp only [List.cons_append, List.cons.injEq] at heq
      refine ⟨p', q, heq.2, fun hm => hnot ?_⟩
      exact List.mem_cons_of_mem a hm
  · rintro ⟨p, q, heq, hnot⟩
    refine ⟨c :: p, q, by simp [heq], ?_⟩
    intro hm
    rcases List.mem_cons.mp hm with h | h
    · exact h46 h.symm
    · exact hnot h

lemma colonBeforeDot_cons_colon (l : List Nat) : colonBeforeDot (58 :: l) :=
  ⟨[], l, rfl, by simp⟩

lemma not_colonBeforeDot_cons_dot (l : List Nat) :
    ¬ colonBeforeDot (46 :: l) := by
  rintro ⟨p, q, heq, hnot⟩
  cases p with
  | nil => simp at heq
  | cons a p' =>
    simp only [List.cons_append, List.cons.injEq] at heq
    exact hnot (heq.1 ▸ List.mem_cons_self a p')

lemma dotThenParen_cons (c : Nat) (l : List Nat) (h46 : c ≠ 46) :
    dotThenParen (c :: l) ↔ dotThenParen l := by
  constructor
  · rintro ⟨p, q, r, heq⟩
    cases p with
    | nil =>
      rw [List.nil_append] at heq
      injection heq with h1 h2
      exact absurd h1 h46
    | cons a p' =>
      rw [List.cons_append] at heq
      injection heq with h1 h2
      exact ⟨p', q, r, h2⟩
  · rintro ⟨p, q, r, heq⟩
    exact ⟨c :: p, q, r, by simp [heq]⟩

lemma dotThenParen_cons_dot (l : List Nat) :
    dotThenParen (46 :: l) ↔ 40 ∈ l := by
  constructor
  · rintro ⟨p, q, r, heq⟩
    cases p with
    | nil =>
      rw [List.nil_append] at heq
      injection heq with h1 h2
      rw [h2]
      simp
    | cons a p' =>
      rw [List.cons_append] at heq
      injection heq with h1 h2
      rw [h2]
      simp
  · intro hm
    obtain ⟨s, t, hst⟩ := List.append_of_mem hm
    exact ⟨[], s, t, by simp [hst]⟩

lemma llcLoop_false_iff (l : List Nat) :
    llcLoop l false = true ↔ colonBeforeDot l ∨ dotThenParen l := by
  induction l with
  | nil =>
    constructor
    · intro h
      exact absurd h (by simp [llcLoop])
    · rintro (⟨p, q, heq, -⟩ | ⟨p, q, r, heq⟩) <;> cases p <;> simp at heq
  | cons c rest ih =>
    by_cases h46 : c = 46
    · subst h46
      rw [show llcLoop (46 :: rest) false = llcLoop rest true from by
        rw [llcLoop, if_pos rfl], llcLoop_true_iff]
      simp [not_colonBeforeDot_cons_dot, dotThenParen_cons_dot]
    · by_cases h58 : c = 58
      · subst h58
        rw [show llcLoop (58 :: rest) false = true from by
          rw [llcLoop, if_neg (by omega), if_neg (by simp),
            if_pos (by simp)]]
        simp [colonBeforeDot_cons_colon]
      · rw [show llcLoop (c :: rest) false = llcLoop rest false from by
          rw [llcLoop, if_neg h46, if_neg (by simp), if_neg (by simp [h58])],
          ih, colonBeforeDot_cons c rest h58 h46, dotThenParen_cons c rest h46]

lemma looks_like_code_iff (buf : List Nat) :
    looks_like_code buf = true ↔ looksLikeCodeSpec buf := by
  unfold looks_like_code looksLikeCodeSpec thirdCharColon returnCallHead
  split_ifs with h1 h2
  · exact iff_of_true rfl (Or.inl h1)
  · exact iff_of_true rfl (Or.inr (Or.inl h2))
  · rw [llcLoop_false_iff]
    constructor
    · intro h
      exact Or.inr (Or.inr h)
    · rintro (h | h | h | h)
      · exact absurd h h1
      · exact absurd h h2
      · exact Or.inl h
      · exact Or.inr h

lemma classify_desc (v : ValidSymbols) (c : Nat) (content : List Nat)
    (hdesc : v.typ_desc = true ∨ v.dto_desc = true ∨ v.non_desc = true)
    (hc1 : 97 ≤ c) (hc2 : c ≤ 122)
    (hcode : looks_like_code (collectLine (c :: content) 0) = false) :
    classify v 0 (List.replicate 4 32 ++ c :: content) =
      ⟨some (if v.typ_desc then TokenType.TYP_DESC
        else if v.dto_desc then TokenType.DTO_DESC else TokenType.NON_DESC),
       4 + (collectLine (c :: content) 0).length⟩ := by
  have hhead : (c :: content).headD 0 ≠ 32 := by
    simp only [List.headD_cons]
    omega
  have hcount := countSpaces_replicate_append 4 (c :: content) hhead
  have hdrop := drop_replicate_append 4 (c :: content)
  obtain ⟨t, d, nd, f⟩ := v
  cases t <;> cases d <;> cases nd <;> cases f <;>
    simp_all [classify, lookahead, hc1, hc2]

lemma classify_fault (v : ValidSymbols) (n : Nat) (content : List Nat)
    (hf : v.fault_line = true) (hn : 6 ≤ n)
    (hhead : content.headD 0 ≠ 32) :
    classify v 0 (List.replicate n 32 ++ content) =
      if 97 ≤ lookahead content ∧ lookahead content ≤ 122 then
        if is_fault_content (collectLine content 0) then
          ⟨some TokenType.FAULT_LINE, n + (collectLine content 0).length⟩
        else ⟨none, n + (collectLine content 0).length⟩
      else ⟨none, n⟩ := by
  have hcount := countSpaces_replicate_append n content hhead
  have hdrop := drop_replicate_append n content
  obtain ⟨t, d, nd, f⟩ := v
  simp only at hf
  subst hf
  unfold classify
  simp only [hcount, hdrop]
  rw [if_neg (by simp), if_neg (by simp), if_pos ⟨by trivial, hn⟩]

/-- C1: a line of exactly 4 spaces, then a lowercase ASCII letter, then
content on which the code-shape heuristic does not fire, with at least one
of TYP_DESC/DTO_DESC/NON_DESC requested, classifies as a description kind,
and as TYP_DESC whenever TYP_DESC is requested. -/
theorem four_space_prose_line_yields_description (v : ValidSymbols)
    (c : Nat) (content : List Nat)
    (hdesc : v.typ_desc = true ∨ v.dto_desc = true ∨ v.non_desc = true)
    (hc1 : 97 ≤ c) (hc2 : c ≤ 122)
    (hcode : looks_like_code (collectLine (c :: content) 0) = false) :
    ∃ k, (classify v 0 (List.replicate 4 32 ++ c :: content)).result =
        some k ∧
      (k = TokenType.TYP_DESC ∨ k = TokenType.DTO_DESC ∨
        k = TokenType.NON_DESC) ∧
      (v.typ_desc = true → k = TokenType.TYP_DESC) := by
  rw [classify_desc v c content hdesc hc1 hc2 hcode]
  refine ⟨_, rfl, ?_, ?_⟩
  · split_ifs <;> simp
  · intro ht
    rw [if_pos ht]

/-- Witness for C1: four spaces then "hi" with only TYP_DESC requested. -/
theorem four_space_prose_line_yields_description_witness :
    ∃ k, (classify ⟨true, false, false, false⟩ 0
        (List.replicate 4 32 ++ 104 :: [105])).result = some k ∧
      (k = TokenType.TYP_DESC ∨ k = TokenType.DTO_DESC ∨
        k = TokenType.NON_DESC) ∧
      ((⟨true, false, false, false⟩ : ValidSymbols).typ_desc = true →
        k = TokenType.TYP_DESC) :=
  four_space_prose_line_yields_description ⟨true, false, false, false⟩
    104 [105] (Or.inl rfl) (by decide) (by decide) (by decide)

/-- C2: with FAULT_LINE requested, 6 or more spaces of indentation, a
lowercase first content character, every collected byte in
lowercase/digit/hyphen/space and at least one lowercase letter present,
classification matches FAULT_LINE consuming the indentation plus the
collected content. -/
theorem fault_line_accepted (v : ValidSymbols) (n c : Nat)
    (content : List Nat) (hf : v.fault_line = true) (hn : 6 ≤ n)
    (hc1 : 97 ≤ c) (hc2 : c ≤ 122)
    (hall : ∀ x ∈ collectLine (c :: content) 0,
      (97 ≤ x ∧ x ≤ 122) ∨ (48 ≤ x ∧ x ≤ 57) ∨ x = 45 ∨ x = 32)
    (hword : ∃ x ∈ collectLine (c :: content) 0, 97 ≤ x ∧ x ≤ 122) :
    classify v 0 (List.replicate n 32 ++ c :: content) =
      ⟨some TokenType.FAULT_LINE,
       n + (collectLine (c :: content) 0).length⟩ := by
  have hhead : (c :: content).headD 0 ≠ 32 := by
    simp only [List.headD_cons]
    omega
  rw [classify_fault v n (c :: content) hf hn hhead,
    if_pos (by simp only [lookahead, List.headD_cons]; exact ⟨hc1, hc2⟩),
    if_pos ((is_fault_content_iff _).mpr ⟨hall, hword⟩)]

/-- Witness for C2: six spaces then "con" with FAULT_LINE requested. -/
theorem fault_line_accepted_witness :
    classify ⟨false, false, false, true⟩ 0
        (List.replicate 6 32 ++ 99 :: [111, 110]) =
      ⟨some TokenType.FAULT_LINE,
       6 + (collectLine (99 :: [111, 110]) 0).length⟩ :=
  fault_line_accepted ⟨false, false, false, true⟩ 6 99 [111, 110] rfl
    (by decide) (by decide) (by decide) (by decide) (by decide)

/-- C3: with FAULT_LINE requested and 6 or more spaces of indentation, a
line whose content does not start with a lowercase letter or fails the
fault-content validation is rejected outright, never reported as a
description kind, no matter which other kinds are requested. -/
theorem deep_indent_nonfault_rejected (v : ValidSymbols) (n : Nat)
    (content : List Nat) (hf : v.fault_line = true) (hn : 6 ≤ n)
    (hhead : content.headD 0 ≠ 32)
    (hbad : ¬ (97 ≤ content.headD 0 ∧ content.headD 0 ≤ 122) ∨
      is_fault_content (collectLine content 0) = false) :
    (classify v 0 (List.replicate n 32 ++ content)).result = none := by
  rw [classify_fault v n content hf hn hhead]
  by_cases hlow : 97 ≤ lookahead content ∧ lookahead content ≤ 122
  · rw [if_pos hlow]
    rcases hbad with h | h
    · exact absurd (by simpa [lookahead] using hlow) h
    · rw [if_neg (by simp [h])]
  · rw [if_neg hlow]

/-- Witness for C3: six spaces then "C" (uppercase) with every kind
requested is rejected. -/
theorem deep_indent_nonfault_rejected_witness :
    (classify ⟨true, true, true, true⟩ 0
      (List.replicate 6 32 ++ [67])).result = none :=
  deep_indent_nonfault_rejected ⟨true, true, true, true⟩ 6 [67] rfl
    (by decide) (by decide) (Or.inl (by decide))

lemma classify_desc_code_reject (v : ValidSymbols) (rest : List Nat)
    (hhead : rest.headD 0 ≠ 32)
    (hcode : looks_like_code (collectLine rest 0) = true) :
    (classify v 0 (List.replicate 4 32 ++ rest)).result = none := by
  have hcount := countSpaces_replicate_append 4 rest hhead
  have hdrop := drop_replicate_append 4 rest
  unfold classify
  simp only [hcount, hdrop]
  by_cases h1 : v.typ_desc = false ∧ v.dto_desc = false ∧
      v.non_desc = false ∧ v.fault_line = false
  · rw [if_pos h1]
  · rw [if_neg h1, if_neg (show ¬ (0 : Nat) ≠ 0 by omega),
      if_neg (show ¬ (v.fault_line = true ∧ 6 ≤ 4) from
        fun h => absurd h.2 (by omega)),
      if_neg (show ¬ (4 : Nat) ≠ 4 by omega)]
    by_cases h3 : v.typ_desc = false ∧ v.dto_desc = false ∧
        v.non_desc = false
    · rw [if_pos h3]
    · rw [if_neg h3]
      by_cases h4 : 97 ≤ lookahead rest ∧ lookahead rest ≤ 122
      · rw [if_neg (not_not_intro h4), if_pos hcode]
      · rw [if_pos h4]

/-- C4: looks_like_code fires exactly on the four code shapes of the spec
(third byte a colon, a `return(` head, a colon before any dot, or a paren
after an earlier dot), and when it fires on the collected content of a
4-space-indented line the classification reports no match. -/
theorem looks_like_code_characterization (buf : List Nat)
    (v : ValidSymbols) (rest : List Nat) (hhead : rest.headD 0 ≠ 32)
    (hcode : looks_like_code (collectLine rest 0) = true) :
    (looks_like_code buf = true ↔ looksLikeCodeSpec buf) ∧
    (classify v 0 (List.replicate 4 32 ++ rest)).result = none :=
  ⟨looks_like_code_iff buf, classify_desc_code_reject v rest hhead hcode⟩

/-- Witness for C4: four spaces then "db:f" with every kind requested is
rejected as code-shaped. -/
theorem looks_like_code_characterization_witness :
    (classify ⟨true, true, true, true⟩ 0
      (List.replicate 4 32 ++ [100, 98, 58, 102])).result = none :=
  (looks_like_code_characterization [100, 98, 58, 102]
    ⟨true, true, true, true⟩ [100, 98, 58, 102] (by decide) (by decide)).2

/-- C5: when the description path succeeds, the reported kind is the
highest-priority requested kind under TYP_DESC over DTO_DESC over
NON_DESC. -/
theorem description_kind_priority (v : ValidSymbols) (c : Nat)
    (content : List Nat)
    (hdesc : v.typ_desc = true ∨ v.dto_desc = true ∨ v.non_desc = true)
    (hc1 : 97 ≤ c) (hc2 : c ≤ 122)
    (hcode : looks_like_code (collectLine (c :: content) 0) = false) :
    (classify v 0 (List.replicate 4 32 ++ c :: content)).result =
      some (if v.typ_desc then TokenType.TYP_DESC
        else if v.dto_desc then TokenType.DTO_DESC
        else TokenType.NON_DESC) := by
  rw [classify_desc v c content hdesc hc1 hc2 hcode]

/-- Witness for C5: with DTO_DESC and NON_DESC requested and TYP_DESC
absent, four spaces then "ab" reports DTO_DESC. -/
theorem description_kind_priority_witness :
    (classify ⟨false, true, true, false⟩ 0
      (List.replicate 4 32 ++ 97 :: [98])).result =
      some TokenType.DTO_DESC := by
  have h := description_kind_priority ⟨false, true, true, false⟩ 97 [98]
    (Or.inr (Or.inl rfl)) (by decide) (by decide) (by decide)
  simpa using h

/-- C6: away from column 0 the classifier matches nothing and consumes
nothing, whatever kinds are requested. -/
theorem nonzero_column_rejects (v : ValidSymbols) (col : Nat)
    (input : List Nat) (h : col ≠ 0) :
    classify v col input = ⟨none, 0⟩ := by
  unfold classify
  by_cases h1 : v.typ_desc = false ∧ v.dto_desc = false ∧
      v.non_desc = false ∧ v.fault_line = false
  · rw [if_pos h1]
  · rw [if_neg h1, if_pos h]

/-- Witness for C6: column 3 rejects even with every kind requested. -/
theorem nonzero_column_rejects_witness :
    classify ⟨true, true, true, true⟩ 3 [32, 32] = ⟨none, 0⟩ :=
  nonzero_column_rejects ⟨true, true, true, true⟩ 3 [32, 32] (by decide)

/-- C7: classification never consumes past the end of input, and a
declared match consumes exactly the counted indentation plus the collected
line content, a region containing no newline, carriage return or NUL. -/
theorem consumption_invariant (v : ValidSymbols) (col : Nat)
    (input : List Nat) :
    (classify v col input).consumed ≤ input.length ∧
    ∀ k, (classify v col input).result = some k →
      (classify v col input).consumed =
        countSpaces input +
          (collectLine (input.drop (countSpaces input)) 0).length ∧
      ∀ x ∈ input.take ((classify v col input).consumed),
        x ≠ 10 ∧ x ≠ 13 ∧ x ≠ 0 := by
  have hs := countSpaces_le_length input
  have hbl := collectLine_length_le_input (input.drop (countSpaces input)) 0
  have hlen : (input.drop (countSpaces input)).length =
      input.length - countSpaces input := List.length_drop _ _
  have hterm : ∀ x ∈ input.take (countSpaces input +
      (collectLine (input.drop (countSpaces input)) 0).length),
      x ≠ 10 ∧ x ≠ 13 ∧ x ≠ 0 := by
    intro x hx
    rw [List.take_add] at hx
    rcases List.mem_append.mp hx with hx | hx
    · rw [take_countSpaces] at hx
      have h32 := List.eq_of_mem_replicate hx
      subst h32
      refine ⟨by omega, by omega, by omega⟩
    · exact mem_take_collectLine _ 0 x hx
  have key : ((classify v col input).consumed = 0 ∧
        (classify v col input).result = none) ∨
      ((classify v col input).consumed = countSpaces input ∧
        (classify v col input).result = none) ∨
      (classify v col input).consumed = countSpaces input +
        (collectLine (input.drop (countSpaces input)) 0).length := by
    simp only [classify]
    split_ifs <;> simp
  constructor
  · rcases key with ⟨h, -⟩ | ⟨h, -⟩ | h <;> omega
  · intro k hk
    rcases key with ⟨-, h⟩ | ⟨-, h⟩ | h
    · rw [h] at hk
      exact absurd hk (by simp)
    · rw [h] at hk
      exact absurd hk (by simp)
    · refine ⟨h, ?_⟩
      rw [h]
      exact hterm

/-- Witness for C7: a matched fault line of six spaces plus "ab" consumes
exactly indentation plus content and stays within the input. -/
theorem consumption_invariant_witness :
    (classify ⟨false, false, false, true⟩ 0
        (List.replicate 6 32 ++ [97, 98])).consumed ≤
      (List.replicate 6 32 ++ [97, 98]).length ∧
    (classify ⟨false, false, false, true⟩ 0
        (List.replicate 6 32 ++ [97, 98])).consumed =
      countSpaces (List.replicate 6 32 ++ [97, 98]) +
        (collectLine ((List.replicate 6 32 ++ [97, 98]).drop
          (countSpaces (List.replicate 6 32 ++ [97, 98]))) 0).length :=
  ⟨(consumption_invariant ⟨false, false, false, true⟩ 0
      (List.replicate 6 32 ++ [97, 98])).1,
   ((consumption_invariant ⟨false, false, false, true⟩ 0
      (List.replicate 6 32 ++ [97, 98])).2 TokenType.FAULT_LINE
      (by decide)).1⟩

/-- C8: the collected line buffer holds at most 255 bytes, and equals the
byte-truncated first 255 characters of the line up to the first
terminator, so a longer line is judged only on that truncated view. -/
theorem line_buffer_bounded (cs : List Nat) :
    (collectLine cs 0).length ≤ 255 ∧
    collectLine cs 0 =
      ((cs.takeWhile fun c => decide (c ≠ 10 ∧ c ≠ 13 ∧ c ≠ 0)).take
        255).map (fun c => c % 256) := by
  constructor
  · have h := collectLine_length_le cs 0
    omega
  · have h := collectLine_eq cs 0
    simpa using h

/-- C9: the scan entry point never reads the scanner payload, so identical
cursors and requested kinds always produce identical decisions, and the
scanner state is created empty and serializes to zero bytes. -/
theorem scanner_stateless_deterministic (p q : Option Nat)
    (v : ValidSymbols) (col : Nat) (input : List Nat) :
    tree_sitter_rune_external_scanner_scan p v col input =
      tree_sitter_rune_external_scanner_scan q v col input ∧
    tree_sitter_rune_external_scanner_serialize p = 0 ∧
    tree_sitter_rune_external_scanner_create = none :=
  ⟨rfl, rfl, rfl⟩

/-- C10: collected bytes are the lookahead codepoint reduced mod 256, so a
line of six spaces, a lowercase letter and the non-ASCII codepoint 353
(U+0161, low byte 97) passes fault validation and matches FAULT_LINE. -/
theorem char_cast_truncation_fault_line :
    collectLine [97, 353] 0 = [97, 97] ∧
    classify ⟨false, false, false, true⟩ 0
        (List.replicate 6 32 ++ [97, 353]) =
      ⟨some TokenType.FAULT_LINE, 8⟩ := by
  constructor <;> rfl
